import Mathlib

/-!
Verification development for the visionscribe repository.

Shallow embedding of the similarity / deduplication core:
  * `src/visionscribe/utils/text_similarity.py`
      (`calculate_text_similarity`, `clean_text`, `_jaccard_similarity`,
       `_levenshtein_similarity`, `_word_overlap_similarity`)
  * `src/visionscribe/text_deduplicator.py` (`TextDeduplicator.deduplicate_texts`)
  * `src/visionscribe/video_processor.py` (`VideoProcessor.deduplicate_frames`)

Python floats are modelled as rationals (the idealization of the score
formulas `|inter| / |union|` and `1 - d / max_len`, which the source computes
in floating point), Python strings as `String`, Python `list` as `List`,
Python `set` of strings as `Finset String` (membership-only usage) or as a
seen-list with membership where the source only tests membership.

The TF-IDF cosine backend (`_cosine_similarity`) calls into sklearn, which is
third-party floating-point code not part of this repository; it is passed as
an explicit function parameter `cosine` to the embedded dispatcher, so that
every theorem states exactly what is proved about the in-repo code for an
arbitrary (or explicitly constrained) cosine backend.
-/

namespace VisionScribe

/-- Python `str.split()` with no separator, over the character list: the
maximal runs of non-whitespace characters, in order (so no empty pieces are
produced).  `acc` holds the reversed current run. -/
def pySplitL : List Char → List Char → List (List Char)
  | [], acc => if acc = [] then [] else [acc.reverse]
  | c :: cs, acc =>
      if c.isWhitespace then
        if acc = [] then pySplitL cs [] else acc.reverse :: pySplitL cs []
      else pySplitL cs (c :: acc)

/-- Python `str.split()` with no separator: split on whitespace runs,
discarding empty pieces (used by `clean_text` and the token-based metrics). -/
def pySplit (s : String) : List String :=
  (pySplitL s.data []).map String.mk

/-- Python `' '.join(words)`: the words joined by single spaces. -/
def joinWords : List (List Char) → List Char
  | [] => []
  | [w] => w
  | w :: ws => w ++ ' ' :: joinWords ws

/-- The non-alphanumeric characters kept by `clean_text`'s regular expression
`[^\w\s\-\.\(\)\[\]\x7b\x7d:;#@\$%\^&\*\+=<>\/\?!\'\"~\x60|\\]` (everything not
word, whitespace, or one of these punctuation marks is removed).  The brace and
backtick characters are written via their code points. -/
def keptPunct : List Char :=
  ['-', '.', '(', ')', '[', ']', ':', ';', '#', '@', '$', '%', '^', '&', '*',
   '+', '=', '<', '>', '/', '?', '!', '\'', '"', '~', '|', '\\', '_',
   Char.ofNat 123, Char.ofNat 125, Char.ofNat 96]

/-- Character class kept by `clean_text`: `\w` (modelled on its ASCII core:
alphanumeric or underscore), `\s`, or one of the kept punctuation marks. -/
def keepChar (c : Char) : Bool :=
  c.isAlphanum || c.isWhitespace || keptPunct.contains c

/-- `clean_text` from `utils/text_similarity.py`: collapse whitespace runs to
single spaces (`' '.join(text.split())`), drop characters outside the kept
class, lowercase (`Char.toLower` models Python `str.lower()` on its ASCII
core). -/
def clean_text (text : String) : String :=
  let collapsed := joinWords (pySplitL text.data [])
  let stripped := collapsed.filter keepChar
  String.mk (stripped.map Char.toLower)

/-- `_jaccard_similarity`: token sets of the two texts, `|inter| / |union|`,
`0.0` when the union is empty. -/
def jaccard_similarity (text1 text2 : String) : ℚ :=
  if ((pySplit text1).toFinset ∪ (pySplit text2).toFinset).card = 0 then 0
  else (((pySplit text1).toFinset ∩ (pySplit text2).toFinset).card : ℚ) /
    (((pySplit text1).toFinset ∪ (pySplit text2).toFinset).card : ℚ)

/-- `_word_overlap_similarity`: `0.0` if either token list is empty, otherwise
`|inter| / |union|` of the token sets (with a redundant `total > 0` guard,
mirrored from the source). -/
def word_overlap_similarity (text1 text2 : String) : ℚ :=
  if pySplit text1 = [] ∨ pySplit text2 = [] then 0
  else if 0 < ((pySplit text1).toFinset ∪ (pySplit text2).toFinset).card then
    (((pySplit text1).toFinset ∩ (pySplit text2).toFinset).card : ℚ) /
      (((pySplit text1).toFinset ∪ (pySplit text2).toFinset).card : ℚ)
  else 0

/-- Classic Levenshtein edit distance (unit-cost insert / delete / substitute),
by the standard recurrence.  The `min`-argument order matches the order in
which `_levenshtein_similarity`'s dynamic program consults its neighbours:
`dp[i-1][j]`, `dp[i][j-1]`, `dp[i-1][j-1]`. -/
def lev : List Char → List Char → Nat
  | [], ys => ys.length
  | x :: xs, [] => (x :: xs).length
  | x :: xs, y :: ys =>
      if x = y then lev xs ys
      else 1 + min (lev xs (y :: ys)) (min (lev (x :: xs) ys) (lev xs ys))
termination_by xs ys => xs.length + ys.length
decreasing_by all_goals simp_arith

/-- The dynamic-programming table of `_levenshtein_similarity`:
`dpF a b i j` is the value `dp[i][j]` after the fill loops complete
(row 0 and column 0 initialized to `j` and `i`; interior cells from the
three neighbours, comparing `a[i-1]` with `b[j-1]`). -/
def dpF (a b : List Char) : Nat → Nat → Nat
  | i, 0 => i
  | 0, j + 1 => j + 1
  | i + 1, j + 1 =>
      if a.getD i ' ' = b.getD j ' ' then dpF a b i j
      else 1 + min (dpF a b i (j + 1)) (min (dpF a b (i + 1) j) (dpF a b i j))
termination_by i j => i + j
decreasing_by all_goals simp_arith

/-- `_levenshtein_similarity`: fill the DP table, then return `1.0` when both
strings are empty (`max_len == 0`), else `1 - dp[m][n] / max_len`. -/
def levenshtein_similarity (text1 text2 : String) : ℚ :=
  if max text1.length text2.length = 0 then 1
  else 1 - (dpF text1.data text2.data text1.length text2.length : ℚ) /
    (max text1.length text2.length : ℚ)

/-- Error kind named by the specification for an unknown similarity method.
The embedded dispatcher's codomain is `Except SimError ℚ` so that "signals an
error" is statable; every return of the source function is an `Except.ok`. -/
inductive SimError where
  | InvalidConfiguration
deriving DecidableEq

/-- `calculate_text_similarity` from `utils/text_similarity.py`: return `0.0`
if either input is falsy (empty), otherwise clean both texts and dispatch on
the method string; any unrecognized method falls through to the final `else`,
which calls the cosine backend. -/
def calculate_text_similarity (cosine : String → String → ℚ)
    (text1 text2 : String) (method : String) : Except SimError ℚ :=
  if text1 = "" ∨ text2 = "" then Except.ok 0
  else if method = "cosine" then
    Except.ok (cosine (clean_text text1) (clean_text text2))
  else if method = "jaccard" then
    Except.ok (jaccard_similarity (clean_text text1) (clean_text text2))
  else if method = "levenshtein" then
    Except.ok (levenshtein_similarity (clean_text text1) (clean_text text2))
  else if method = "word_overlap" then
    Except.ok (word_overlap_similarity (clean_text text1) (clean_text text2))
  else Except.ok (cosine (clean_text text1) (clean_text text2))

/-- The method strings the dispatcher recognizes. -/
def supportedMethods : List String := ["cosine", "jaccard", "levenshtein", "word_overlap"]

/-- A concrete (constant-zero) cosine backend, used to instantiate
counterexamples and witnesses on inputs whose evaluation never reaches the
cosine branch or where its value is irrelevant. -/
def cosineZero : String → String → ℚ := fun _ _ => 0

/-- Text block record (`models.py` `TextBlock`, restricted to the fields the
deduplicator and the claims touch; `deduplicate_texts` reads only `text`). -/
structure TextBlock where
  id : Nat
  text : String
  confidence : ℚ
deriving DecidableEq

/-- Configuration mapping handed to `TextDeduplicator.__init__`; the spec's
clustering threshold lives here.  `deduplicate_texts` never reads it. -/
structure DedupConfig where
  similarity_threshold : ℚ
deriving DecidableEq

/-- The loop body of `TextDeduplicator.deduplicate_texts`: walk the blocks,
keep a block when its `text` is not in `seen_texts`, accumulating
`unique_blocks` in order. -/
def dedupTextsLoop : List TextBlock → List String → List TextBlock → List TextBlock
  | [], _, unique_blocks => unique_blocks
  | block :: rest, seen_texts, unique_blocks =>
      if block.text ∈ seen_texts then dedupTextsLoop rest seen_texts unique_blocks
      else dedupTextsLoop rest (block.text :: seen_texts) (unique_blocks ++ [block])

/-- `TextDeduplicator.deduplicate_texts`: early-return `[]` on empty input,
else run the exact-text seen-set loop.  The configuration is stored by the
class but unused by this method, exactly as in the source. -/
def deduplicate_texts (config : DedupConfig) (text_blocks : List TextBlock) :
    List TextBlock :=
  if text_blocks = [] then [] else dedupTextsLoop text_blocks [] []

/-- First-occurrence filter: keep each block whose text was not seen before
(direct recursion; used to characterize `deduplicate_texts`). -/
def firstOcc : List TextBlock → List String → List TextBlock
  | [], _ => []
  | b :: rest, seen =>
      if b.text ∈ seen then firstOcc rest seen
      else b :: firstOcc rest (b.text :: seen)

/-- Frame record (`models.py` `Frame`, restricted to the fields the claims
touch; `deduplicate_frames` treats frames opaquely save for the similarity
call). -/
structure Frame where
  id : Nat
  image_path : String
  timestamp : ℚ
  confidence : ℚ
deriving DecidableEq

/-- The loop body of `VideoProcessor.deduplicate_frames`: a candidate is a
duplicate when some already-retained frame compares strictly above the
threshold (`similarity > threshold` in the source); non-duplicates are
appended to `unique_frames`.  `_calculate_frame_similarity` does image I/O and
SSIM, so it is the explicit parameter `sim`. -/
def dedupFramesLoop (sim : Frame → Frame → ℚ) (threshold : ℚ) :
    List Frame → List Frame → List Frame
  | [], unique_frames => unique_frames
  | frame :: rest, unique_frames =>
      if unique_frames.any (fun u => decide (threshold < sim frame u)) then
        dedupFramesLoop sim threshold rest unique_frames
      else dedupFramesLoop sim threshold rest (unique_frames ++ [frame])

/-- `VideoProcessor.deduplicate_frames`: empty input returns `[]`; otherwise
the first frame is always retained and the loop processes the rest. -/
def deduplicate_frames (sim : Frame → Frame → ℚ) (frames : List Frame)
    (threshold : ℚ) : List Frame :=
  match frames with
  | [] => []
  | f :: rest => dedupFramesLoop sim threshold rest [f]

/-- Modelled from the spec: the greedy frame dedupe of §4.2, written as a fold
and parameterized by the duplicate test `isDup similarity threshold` (the spec
words it as "if any comparison ≥ threshold, drop the candidate"). -/
def greedyDedup (isDup : ℚ → ℚ → Bool) (sim : Frame → Frame → ℚ)
    (threshold : ℚ) (frames : List Frame) : List Frame :=
  frames.foldl
    (fun retained f =>
      if retained = [] then [f]
      else if retained.any (fun u => isDup (sim f u) threshold) then retained
      else retained ++ [f]) []

/-! ### Concrete inputs used by counterexamples and witnesses -/

/-- A text block whose OCR text is the empty string. -/
def blockEmpty : TextBlock := ⟨0, "", 1⟩

/-- A text block with non-empty text, distinct from `blockEmpty`. -/
def blockX : TextBlock := ⟨1, "x", 1⟩

/-- A deduplicator configuration with clustering threshold `0.5`. -/
def cfgHalf : DedupConfig := ⟨1/2⟩

/-- First of two distinct frames. -/
def frameA : Frame := ⟨0, "frame_000000.jpg", 0, 1⟩

/-- Second frame of the counterexample pair. -/
def frameB : Frame := ⟨1, "frame_000001.jpg", 1, 1⟩

/-- An image-similarity oracle that reports similarity exactly `1` for every
pair, so that every comparison sits exactly at a threshold of `1`. -/
def simOne : Frame → Frame → ℚ := fun _ _ => 1

/-- The spec's duplicate test: similarity greater than or equal to threshold. -/
def geTest : ℚ → ℚ → Bool := fun s t => decide (t ≤ s)

/-- The source's duplicate test: similarity strictly greater than threshold. -/
def gtTest : ℚ → ℚ → Bool := fun s t => decide (t < s)

/-! ### Levenshtein distance: equations and basic facts -/

theorem lev_nil_left (ys : List Char) : lev [] ys = ys.length := by
  simp [lev]

theorem lev_nil_right (xs : List Char) : lev xs [] = xs.length := by
  cases xs <;> simp [lev]

theorem lev_cons_cons (x y : Char) (xs ys : List Char) :
    lev (x :: xs) (y :: ys) =
      if x = y then lev xs ys
      else 1 + min (lev xs (y :: ys)) (min (lev (x :: xs) ys) (lev xs ys)) := by
  simp [lev]

theorem lev_self (xs : List Char) : lev xs xs = 0 := by
  induction xs with
  | nil => simp [lev_nil_left]
  | cons x xs ih => rw [lev_cons_cons]; simp [ih]

theorem lev_comm (xs ys : List Char) : lev xs ys = lev ys xs := by
  have key : ∀ n (xs ys : List Char), xs.length + ys.length = n →
      lev xs ys = lev ys xs := by
    intro n
    induction n using Nat.strong_induction_on with
    | _ n ih =>
      intro xs ys hn
      cases xs with
      | nil => simp [lev_nil_left, lev_nil_right]
      | cons x xs =>
        cases ys with
        | nil => simp [lev_nil_left, lev_nil_right]
        | cons y ys =>
          simp only [List.length_cons] at hn
          have h1 : lev xs ys = lev ys xs :=
            ih (xs.length + ys.length) (by omega) xs ys rfl
          have h2 : lev xs (y :: ys) = lev (y :: ys) xs :=
            ih (xs.length + (y :: ys).length) (by simp only [List.length_cons]; omega)
              xs (y :: ys) rfl
          have h3 : lev (x :: xs) ys = lev ys (x :: xs) :=
            ih ((x :: xs).length + ys.length) (by simp only [List.length_cons]; omega)
              (x :: xs) ys rfl
          rw [lev_cons_cons, lev_cons_cons, h1, h2, h3]
          by_cases hxy : x = y
          · simp [hxy]
          · have hyx : ¬ y = x := fun h => hxy h.symm
            simp only [hxy, hyx, if_false]
            omega
  exact key (xs.length + ys.length) xs ys rfl

/-! ### The DP table computes the Levenshtein distance -/

theorem dpF_zero_right (a b : List Char) (i : Nat) : dpF a b i 0 = i := by
  simp [dpF]

theorem dpF_zero_left (a b : List Char) (j : Nat) : dpF a b 0 (j + 1) = j + 1 := by
  simp [dpF]

theorem dpF_succ_succ (a b : List Char) (i j : Nat) :
    dpF a b (i + 1) (j + 1) =
      if a.getD i ' ' = b.getD j ' ' then dpF a b i j
      else 1 + min (dpF a b i (j + 1)) (min (dpF a b (i + 1) j) (dpF a b i j)) := by
  simp [dpF]

theorem take_succ_reverse (a : List Char) (i : Nat) (h : i < a.length) :
    (a.take (i + 1)).reverse = a.getD i ' ' :: (a.take i).reverse := by
  rw [List.take_succ, List.reverse_append]
  have hg : a[i]? = some a[i] := List.getElem?_eq_getElem h
  rw [hg, List.getD_eq_getElem?_getD, hg]
  simp

theorem dpF_eq_lev (a b : List Char) :
    ∀ n i j, i + j = n → i ≤ a.length → j ≤ b.length →
      dpF a b i j = lev ((a.take i).reverse) ((b.take j).reverse) := by
  intro n
  induction n using Nat.strong_induction_on with
  | _ n ih =>
    intro i j hn hi hj
    match i, j with
    | i, 0 =>
      rw [dpF_zero_right]
      simp [lev_nil_right, Nat.min_eq_left hi]
    | 0, j + 1 =>
      rw [dpF_zero_left]
      simp [lev_nil_left, Nat.min_eq_left hj]
    | i + 1, j + 1 =>
      have hia : i < a.length := by omega
      have hjb : j < b.length := by omega
      have e1 : dpF a b i j = lev ((a.take i).reverse) ((b.take j).reverse) :=
        ih (i + j) (by omega) i j rfl (by omega) (by omega)
      have e2 : dpF a b i (j + 1) = lev ((a.take i).reverse) ((b.take (j + 1)).reverse) :=
        ih (i + (j + 1)) (by omega) i (j + 1) rfl (by omega) (by omega)
      have e3 : dpF a b (i + 1) j = lev ((a.take (i + 1)).reverse) ((b.take j).reverse) :=
        ih ((i + 1) + j) (by omega) (i + 1) j rfl (by omega) (by omega)
      rw [dpF_succ_succ, e1, e2, e3, take_succ_reverse a i hia, take_succ_reverse b j hjb,
        lev_cons_cons]

theorem dpF_full (a b : List Char) :
    dpF a b a.length b.length = lev a.reverse b.reverse := by
  rw [dpF_eq_lev a b (a.length + b.length) a.length b.length rfl le_rfl le_rfl,
    List.take_length, List.take_length]

/-! ### Reversal invariance of the Levenshtein distance -/

theorem one_add_min (u v : ℕ) : min (1 + u) (1 + v) = 1 + min u v := by
  omega

set_option maxHeartbeats 1000000 in
theorem min_transpose3 (a b c d e f g h i : ℕ) :
    min (min a (min b c)) (min (min d (min e f)) (min g (min h i))) =
    min (min a (min d g)) (min (min b (min e h)) (min c (min f i))) := by
  simp only [Nat.min_assoc]
  simp [Nat.min_comm, Nat.min_left_comm]

theorem lev_append_singleton (c d : Char) :
    ∀ n (xs ys : List Char), xs.length + ys.length = n →
      lev (xs ++ [c]) (ys ++ [d]) =
        if c = d then lev xs ys
        else 1 + min (lev xs (ys ++ [d])) (min (lev (xs ++ [c]) ys) (lev xs ys)) := by
  intro n
  induction n using Nat.strong_induction_on with
  | _ n ih =>
    intro xs ys hn
    cases xs with
    | nil =>
      cases ys with
      | nil => simp [lev_cons_cons, lev_nil_left, lev_nil_right]
      | cons y ys' =>
        simp only [List.length_cons, List.length_nil] at hn
        have hIH := ih ys'.length (by omega) [] ys' (by simp)
        simp only [List.nil_append, List.cons_append] at hIH ⊢
        by_cases hcy : c = y <;> by_cases hcd : c = d
        · subst hcy; subst hcd
          simp only [lev_cons_cons, hIH, eq_self_iff_true, if_true, lev_nil_left,
            List.length_append, List.length_cons, List.length_nil]
          all_goals omega
        · subst hcy
          simp only [lev_cons_cons, hIH, eq_self_iff_true, if_true, if_neg hcd,
            lev_nil_left, List.length_append, List.length_cons, List.length_nil]
          all_goals omega
        · subst hcd
          simp only [lev_cons_cons, hIH, eq_self_iff_true, if_true, if_neg hcy,
            lev_nil_left, List.length_append, List.length_cons, List.length_nil]
          all_goals omega
        · simp only [lev_cons_cons, hIH, if_neg hcy, if_neg hcd,
            lev_nil_left, List.length_append, List.length_cons, List.length_nil]
          all_goals omega
    | cons x xs' =>
      cases ys with
      | nil =>
        simp only [List.length_cons, List.length_nil] at hn
        have hIH := ih xs'.length (by omega) xs' [] (by simp)
        simp only [List.nil_append, List.cons_append] at hIH ⊢
        by_cases hxd : x = d <;> by_cases hcd : c = d
        · subst hxd; subst hcd
          simp only [lev_cons_cons, hIH, eq_self_iff_true, if_true, lev_nil_right,
            List.length_append, List.length_cons, List.length_nil]
          all_goals omega
        · subst hxd
          simp only [lev_cons_cons, hIH, eq_self_iff_true, if_true, if_neg hcd,
            lev_nil_right, List.length_append, List.length_cons, List.length_nil]
          all_goals omega
        · subst hcd
          simp only [lev_cons_cons, hIH, eq_self_iff_true, if_true, if_neg hxd,
            lev_nil_right, List.length_append, List.length_cons, List.length_nil]
          all_goals omega
        · simp only [lev_cons_cons, hIH, if_neg hxd, if_neg hcd,
            lev_nil_right, List.length_append, List.length_cons, List.length_nil]
          all_goals omega
      | cons y ys' =>
        simp only [List.length_cons] at hn
        have i1 := ih ((x :: xs').length + ys'.length)
          (by simp only [List.length_cons]; omega) (x :: xs') ys' rfl
        have i2 := ih (xs'.length + (y :: ys').length)
          (by simp only [List.length_cons]; omega) xs' (y :: ys') rfl
        have i3 := ih (xs'.length + ys'.length) (by omega) xs' ys' rfl
        simp only [List.cons_append] at i1 i2 i3 ⊢
        by_cases hxy : x = y <;> by_cases hcd : c = d
        · subst hxy; subst hcd
          simp only [lev_cons_cons, i3, eq_self_iff_true, if_true]
        · subst hxy
          simp only [lev_cons_cons, i1, i2, i3, eq_self_iff_true, if_true, if_neg hcd]
        · subst hcd
          simp only [lev_cons_cons, i1, i2, i3, eq_self_iff_true, if_true, if_neg hxy]
        · simp only [lev_cons_cons, i1, i2, i3, if_neg hxy, if_neg hcd]
          simp only [one_add_min]
          rw [min_transpose3]

theorem lev_reverse (xs ys : List Char) : lev xs.reverse ys.reverse = lev xs ys := by
  have key : ∀ n (xs ys : List Char), xs.length + ys.length = n →
      lev xs.reverse ys.reverse = lev xs ys := by
    intro n
    induction n using Nat.strong_induction_on with
    | _ n ih =>
      intro xs ys hn
      cases xs with
      | nil => simp [lev_nil_left, lev_nil_right]
      | cons x xs' =>
        cases ys with
        | nil => simp [lev_nil_left, lev_nil_right]
        | cons y ys' =>
          simp only [List.length_cons] at hn
          rw [List.reverse_cons, List.reverse_cons,
            lev_append_singleton x y (xs'.reverse.length + ys'.reverse.length)
              xs'.reverse ys'.reverse rfl]
          rw [← List.reverse_cons y ys', ← List.reverse_cons x xs']
          have h1 : lev xs'.reverse ys'.reverse = lev xs' ys' :=
            ih (xs'.length + ys'.length) (by omega) xs' ys' rfl
          have h2 : lev xs'.reverse (y :: ys').reverse = lev xs' (y :: ys') :=
            ih (xs'.length + (y :: ys').length) (by simp only [List.length_cons]; omega)
              xs' (y :: ys') rfl
          have h3 : lev (x :: xs').reverse ys'.reverse = lev (x :: xs') ys' :=
            ih ((x :: xs').length + ys'.length) (by simp only [List.length_cons]; omega)
              (x :: xs') ys' rfl
          rw [h1, h2, h3, lev_cons_cons]
  exact key (xs.length + ys.length) xs ys rfl

/-- The DP table's bottom-right cell is the Levenshtein distance of the two
strings themselves. -/
theorem dpF_eq_lev_full (a b : List Char) : dpF a b a.length b.length = lev a b := by
  rw [dpF_full, lev_reverse]

theorem dpF_string (a b : String) :
    dpF a.data b.data a.length b.length = lev a.data b.data :=
  dpF_eq_lev_full a.data b.data

/-! ### Properties of the individual similarity metrics -/

theorem levenshtein_similarity_comm (a b : String) :
    levenshtein_similarity a b = levenshtein_similarity b a := by
  unfold levenshtein_similarity
  rw [dpF_string, dpF_string, lev_comm, Nat.max_comm,
    max_comm ((a.length : ℚ)) ((b.length : ℚ))]

theorem levenshtein_similarity_self (a : String) :
    levenshtein_similarity a a = 1 := by
  unfold levenshtein_similarity
  rw [dpF_string, lev_self]
  split <;> simp

theorem jaccard_similarity_comm (a b : String) :
    jaccard_similarity a b = jaccard_similarity b a := by
  unfold jaccard_similarity
  rw [Finset.inter_comm, Finset.union_comm]

theorem word_overlap_similarity_comm (a b : String) :
    word_overlap_similarity a b = word_overlap_similarity b a := by
  unfold word_overlap_similarity
  rw [Finset.inter_comm, Finset.union_comm]
  by_cases h : pySplit a = [] ∨ pySplit b = []
  · rw [if_pos h, if_pos (show pySplit b = [] ∨ pySplit a = [] from h.symm)]
  · rw [if_neg h, if_neg (show ¬(pySplit b = [] ∨ pySplit a = []) from fun hh => h hh.symm)]

theorem jaccard_similarity_self (a : String) (h : pySplit a ≠ []) :
    jaccard_similarity a a = 1 := by
  unfold jaccard_similarity
  rw [Finset.inter_self, Finset.union_self]
  have hc : (pySplit a).toFinset.card ≠ 0 := by
    rw [Ne, Finset.card_eq_zero, List.toFinset_eq_empty_iff]
    exact h
  rw [if_neg hc, div_self (by exact_mod_cast hc)]

theorem jaccard_similarity_self_empty (a : String) (h : pySplit a = []) :
    jaccard_similarity a a = 0 := by
  unfold jaccard_similarity
  simp [h]

theorem word_overlap_similarity_self (a : String) (h : pySplit a ≠ []) :
    word_overlap_similarity a a = 1 := by
  unfold word_overlap_similarity
  rw [Finset.inter_self, Finset.union_self]
  have hc : 0 < (pySplit a).toFinset.card := by
    rw [Finset.card_pos, Finset.nonempty_iff_ne_empty, Ne, List.toFinset_eq_empty_iff]
    exact h
  rw [if_neg (by simp [h]), if_pos hc,
    div_self (by exact_mod_cast Nat.pos_iff_ne_zero.mp hc)]

theorem word_overlap_similarity_self_empty (a : String) (h : pySplit a = []) :
    word_overlap_similarity a a = 0 := by
  unfold word_overlap_similarity
  simp [h]

theorem jaccard_eq_word_overlap (t1 t2 : String) :
    jaccard_similarity t1 t2 = word_overlap_similarity t1 t2 := by
  unfold jaccard_similarity word_overlap_similarity
  by_cases h1 : pySplit t1 = [] <;> by_cases h2 : pySplit t2 = []
  · simp [h1, h2]
  · simp [h1, h2]
  · simp [h1, h2]
  · have hu : 0 < ((pySplit t1).toFinset ∪ (pySplit t2).toFinset).card := by
      rw [Finset.card_pos]
      obtain ⟨w, hw⟩ := List.exists_mem_of_ne_nil _ h1
      exact ⟨w, Finset.mem_union_left _ (List.mem_toFinset.mpr hw)⟩
    rw [if_neg (by omega), if_neg (by simp [h1, h2]), if_pos hu]

/-! ### The dispatcher: per-branch evaluation lemmas -/

theorem calculate_empty (cosine : String → String → ℚ) (t1 t2 m : String)
    (h : t1 = "" ∨ t2 = "") :
    calculate_text_similarity cosine t1 t2 m = Except.ok 0 := by
  unfold calculate_text_similarity
  rw [if_pos h]

theorem calculate_cosine (cosine : String → String → ℚ) (t1 t2 : String)
    (h1 : t1 ≠ "") (h2 : t2 ≠ "") :
    calculate_text_similarity cosine t1 t2 "cosine" =
      Except.ok (cosine (clean_text t1) (clean_text t2)) := by
  unfold calculate_text_similarity
  rw [if_neg (by tauto), if_pos rfl]

theorem calculate_jaccard (cosine : String → String → ℚ) (t1 t2 : String)
    (h1 : t1 ≠ "") (h2 : t2 ≠ "") :
    calculate_text_similarity cosine t1 t2 "jaccard" =
      Except.ok (jaccard_similarity (clean_text t1) (clean_text t2)) := by
  unfold calculate_text_similarity
  rw [if_neg (by tauto), if_neg (by decide), if_pos rfl]

theorem calculate_levenshtein (cosine : String → String → ℚ) (t1 t2 : String)
    (h1 : t1 ≠ "") (h2 : t2 ≠ "") :
    calculate_text_similarity cosine t1 t2 "levenshtein" =
      Except.ok (levenshtein_similarity (clean_text t1) (clean_text t2)) := by
  unfold calculate_text_similarity
  rw [if_neg (by tauto), if_neg (by decide), if_neg (by decide), if_pos rfl]

theorem calculate_word_overlap (cosine : String → String → ℚ) (t1 t2 : String)
    (h1 : t1 ≠ "") (h2 : t2 ≠ "") :
    calculate_text_similarity cosine t1 t2 "word_overlap" =
      Except.ok (word_overlap_similarity (clean_text t1) (clean_text t2)) := by
  unfold calculate_text_similarity
  rw [if_neg (by tauto), if_neg (by decide), if_neg (by decide), if_neg (by decide),
    if_pos rfl]

theorem calculate_unknown (cosine : String → String → ℚ) (t1 t2 m : String)
    (hm : m ∉ supportedMethods) (h1 : t1 ≠ "") (h2 : t2 ≠ "") :
    calculate_text_similarity cosine t1 t2 m =
      Except.ok (cosine (clean_text t1) (clean_text t2)) := by
  simp only [supportedMethods, List.mem_cons, List.not_mem_nil, or_false, not_or] at hm
  obtain ⟨hc, hj, hl, hw⟩ := hm
  unfold calculate_text_similarity
  rw [if_neg (by tauto), if_neg hc, if_neg hj, if_neg hl, if_neg hw]

/-! ### Text deduplication: characterization lemmas -/

theorem dedupTextsLoop_eq (blocks : List TextBlock) :
    ∀ (seen : List String) (uniq : List TextBlock),
      dedupTextsLoop blocks seen uniq = uniq ++ firstOcc blocks seen := by
  induction blocks with
  | nil => intro seen uniq; simp [dedupTextsLoop, firstOcc]
  | cons b rest ih =>
    intro seen uniq
    by_cases h : b.text ∈ seen
    · simp [dedupTextsLoop, firstOcc, h, ih]
    · simp [dedupTextsLoop, firstOcc, h, ih]

theorem deduplicate_texts_eq (config : DedupConfig) (blocks : List TextBlock) :
    deduplicate_texts config blocks = firstOcc blocks [] := by
  unfold deduplicate_texts
  by_cases h : blocks = []
  · rw [if_pos h, h]; rfl
  · rw [if_neg h, dedupTextsLoop_eq]; rfl

theorem mem_firstOcc (b : TextBlock) :
    ∀ (pre : List TextBlock) (post : List TextBlock) (seen : List String),
      b.text ∉ seen → (∀ c ∈ pre, c.text ≠ b.text) →
      b ∈ firstOcc (pre ++ b :: post) seen := by
  intro pre
  induction pre with
  | nil =>
    intro post seen hs _
    simp only [List.nil_append, firstOcc, if_neg hs]
    exact List.mem_cons_self b _
  | cons c pre ih =>
    intro post seen hs hp
    by_cases h : c.text ∈ seen
    · rw [List.cons_append]
      simp only [firstOcc, if_pos h]
      exact ih post seen hs (fun d hd => hp d (List.mem_cons_of_mem c hd))
    · rw [List.cons_append]
      simp only [firstOcc, if_neg h]
      refine List.mem_cons_of_mem c ?_
      refine ih post (c.text :: seen) ?_ (fun d hd => hp d (List.mem_cons_of_mem c hd))
      simp only [List.mem_cons, not_or]
      exact ⟨fun hbc => (hp c (List.mem_cons_self c pre)) hbc.symm, hs⟩

/-! ### Frame deduplication: loop lemmas -/

theorem dedupFramesLoop_nil (sim : Frame → Frame → ℚ) (t : ℚ) (acc : List Frame) :
    dedupFramesLoop sim t [] acc = acc := by
  simp [dedupFramesLoop]

theorem dedupFramesLoop_cons (sim : Frame → Frame → ℚ) (t : ℚ) (f : Frame)
    (rest acc : List Frame) :
    dedupFramesLoop sim t (f :: rest) acc =
      if acc.any (fun u => decide (t < sim f u)) then dedupFramesLoop sim t rest acc
      else dedupFramesLoop sim t rest (acc ++ [f]) := by
  simp [dedupFramesLoop]

theorem dedupFramesLoop_foldl (sim : Frame → Frame → ℚ) (t : ℚ) :
    ∀ (rest acc : List Frame), acc ≠ [] →
      dedupFramesLoop sim t rest acc =
        rest.foldl (fun retained f =>
          if retained = [] then [f]
          else if retained.any (fun u => decide (t < sim f u)) then retained
          else retained ++ [f]) acc := by
  intro rest
  induction rest with
  | nil => intro acc _; rw [dedupFramesLoop_nil, List.foldl_nil]
  | cons f rest ih =>
    intro acc h
    rw [dedupFramesLoop_cons, List.foldl_cons]
    by_cases hd : acc.any (fun u => decide (t < sim f u))
    · rw [if_pos hd, ih acc h]
      congr 1
      rw [if_neg h, if_pos hd]
    · rw [if_neg hd, ih (acc ++ [f]) (by simp)]
      congr 1
      rw [if_neg h, if_neg hd]

theorem dedupFramesLoop_sublist (sim : Frame → Frame → ℚ) (t : ℚ) :
    ∀ (rest acc : List Frame),
      ∃ s, dedupFramesLoop sim t rest acc = acc ++ s ∧ List.Sublist s rest := by
  intro rest
  induction rest with
  | nil =>
    intro acc
    exact ⟨[], by rw [dedupFramesLoop_nil, List.append_nil], List.nil_sublist []⟩
  | cons f rest ih =>
    intro acc
    rw [dedupFramesLoop_cons]
    by_cases hd : acc.any (fun u => decide (t < sim f u))
    · rw [if_pos hd]
      obtain ⟨s, hs, hsub⟩ := ih acc
      exact ⟨s, hs, hsub.cons f⟩
    · rw [if_neg hd]
      obtain ⟨s, hs, hsub⟩ := ih (acc ++ [f])
      exact ⟨f :: s, by rw [hs, List.append_assoc]; rfl, hsub.cons₂ f⟩

/-! ### Claims -/

/-- Claim C1, counterexample: `"exact"` is not a recognized method string, yet
`calculate_text_similarity` returns the score `0.0` (here: on an empty first
input) instead of signalling `InvalidConfiguration`. -/
theorem C1_counterexample :
    "exact" ∉ supportedMethods ∧
    calculate_text_similarity cosineZero "" "x" "exact" = Except.ok 0 ∧
    (Except.ok (0 : ℚ) : Except SimError ℚ) ≠ Except.error SimError.InvalidConfiguration := by
  refine ⟨by decide, rfl, by simp⟩

/-- Claim C1 (amended): an unrecognized method never signals an error; the
engine returns `0.0` when either input is empty and otherwise silently falls
back to the cosine backend on the cleaned texts. -/
theorem C1_theorem (cosine : String → String → ℚ) (t1 t2 m : String)
    (hm : m ∉ supportedMethods) :
    calculate_text_similarity cosine t1 t2 m =
      if t1 = "" ∨ t2 = "" then Except.ok 0
      else Except.ok (cosine (clean_text t1) (clean_text t2)) := by
  by_cases hg : t1 = "" ∨ t2 = ""
  · rw [if_pos hg, calculate_empty cosine t1 t2 m hg]
  · rw [if_neg hg]
    push_neg at hg
    exact calculate_unknown cosine t1 t2 m hm hg.1 hg.2

/-- Claim C1, witness for the amended theorem at the unknown method
`"exact"`. -/
theorem C1_witness :
    "exact" ∉ supportedMethods ∧
    calculate_text_similarity cosineZero "" "x" "exact" =
      (if ("" : String) = "" ∨ ("x" : String) = "" then Except.ok 0
       else Except.ok (cosineZero (clean_text "") (clean_text "x"))) :=
  ⟨by decide, C1_theorem cosineZero "" "x" "exact" (by decide)⟩

/-- Claim C2, counterexample: a block with empty text that arrives first is
kept by `deduplicate_texts` (it founds an output entry), not dropped. -/
theorem C2_counterexample :
    deduplicate_texts cfgHalf [blockEmpty] = [blockEmpty] ∧
    blockEmpty ∈ deduplicate_texts cfgHalf [blockEmpty] := by
  refine ⟨rfl, ?_⟩
  rw [show deduplicate_texts cfgHalf [blockEmpty] = [blockEmpty] from rfl]
  exact List.mem_cons_self blockEmpty []

/-- Claim C2 (amended): `deduplicate_texts` keeps exactly the first block of
each distinct text value — empty text included: a block (empty-text or not) is
always kept, and appears in the output, when no earlier block carries the same
text. -/
theorem C2_theorem :
    (∀ (config : DedupConfig) (blocks : List TextBlock),
        deduplicate_texts config blocks = firstOcc blocks []) ∧
    (∀ (config : DedupConfig) (pre post : List TextBlock) (b : TextBlock),
        (∀ c ∈ pre, c.text ≠ b.text) →
        b ∈ deduplicate_texts config (pre ++ b :: post)) := by
  refine ⟨deduplicate_texts_eq, ?_⟩
  intro config pre post b hp
  rw [deduplicate_texts_eq]
  exact mem_firstOcc b pre post [] (List.not_mem_nil _) hp

/-- Claim C2, witness: the empty-text block preceded only by a block with text
`"x"` is kept. -/
theorem C2_witness :
    (∀ c ∈ [blockX], TextBlock.text c ≠ blockEmpty.text) ∧
    blockEmpty ∈ deduplicate_texts cfgHalf ([blockX] ++ blockEmpty :: []) :=
  ⟨by decide, C2_theorem.2 cfgHalf [blockX] [] blockEmpty (by decide)⟩

/-- Claim C3, counterexample: with both inputs empty the engine returns `0.0`
under the EDIT_DISTANCE (`"levenshtein"`) method — the empty-input guard fires
before method dispatch — not the claimed `1.0`. -/
theorem C3_counterexample :
    calculate_text_similarity cosineZero "" "" "levenshtein" = Except.ok 0 ∧
    (Except.ok (0 : ℚ) : Except SimError ℚ) ≠ Except.ok 1 := by
  refine ⟨rfl, by simp⟩

/-- Claim C3 (amended): with both inputs empty the engine returns `0.0` under
both EDIT_DISTANCE and JACCARD (the guard `if not text1 or not text2` returns
`0.0` before any method is consulted). -/
theorem C3_theorem (cosine : String → String → ℚ) :
    calculate_text_similarity cosine "" "" "levenshtein" = Except.ok 0 ∧
    calculate_text_similarity cosine "" "" "jaccard" = Except.ok 0 :=
  ⟨rfl, rfl⟩

/-- Claim C4, counterexample: with every comparison equal to the threshold,
the source keeps the second frame (its test is strictly greater-than), while
the spec's greedy algorithm with a `≥` duplicate test drops it. -/
theorem C4_counterexample :
    deduplicate_frames simOne [frameA, frameB] 1 = [frameA, frameB] ∧
    greedyDedup geTest simOne 1 [frameA, frameB] = [frameA] := by
  refine ⟨by decide, by decide⟩

/-- Claim C4 (amended): frame deduplication is the greedy online algorithm
that always retains the first frame and compares each candidate against every
currently retained frame, but a candidate is dropped if and only if some
comparison is STRICTLY GREATER than the threshold (not `≥`). -/
theorem C4_theorem (sim : Frame → Frame → ℚ) (frames : List Frame) (threshold : ℚ) :
    deduplicate_frames sim frames threshold = greedyDedup gtTest sim threshold frames := by
  unfold deduplicate_frames greedyDedup
  cases frames with
  | nil => rfl
  | cons f rest =>
    simp only [gtTest]
    rw [List.foldl_cons, if_pos rfl]
    exact dedupFramesLoop_foldl sim threshold rest [f] (by simp)

/-- Claim C9: the output of frame deduplication is always a subsequence of
the input in input order; the empty input yields the empty output; a
single-frame input is returned unchanged for every similarity oracle (so no
comparison can influence the result). -/
theorem C9_theorem :
    (∀ (sim : Frame → Frame → ℚ) (frames : List Frame) (t : ℚ),
        List.Sublist (deduplicate_frames sim frames t) frames) ∧
    (∀ (sim : Frame → Frame → ℚ) (t : ℚ), deduplicate_frames sim [] t = []) ∧
    (∀ (sim : Frame → Frame → ℚ) (t : ℚ) (f : Frame),
        deduplicate_frames sim [f] t = [f]) := by
  refine ⟨?_, fun _ _ => rfl, fun _ _ _ => rfl⟩
  intro sim frames t
  cases frames with
  | nil => exact List.nil_sublist []
  | cons f rest =>
    show (dedupFramesLoop sim t rest [f]).Sublist (f :: rest)
    obtain ⟨s, hs, hsub⟩ := dedupFramesLoop_sublist sim t rest [f]
    rw [hs]
    exact List.Sublist.cons₂ f hsub

/-- Claim C5: on the underlying strings, `_levenshtein_similarity` equals one
minus the classic Levenshtein distance (standard unit-cost recurrence `lev`)
divided by the maximum length, whenever at least one string is non-empty. -/
theorem C5_theorem (a b : String) (h : 0 < max a.length b.length) :
    levenshtein_similarity a b =
      1 - (lev a.data b.data : ℚ) / ((max a.length b.length : ℕ) : ℚ) := by
  unfold levenshtein_similarity
  rw [dpF_string, if_neg (by omega)]
  norm_cast

/-- Claim C5, witness at `"ab"` / `"b"`. -/
theorem C5_witness :
    0 < max ("ab" : String).length ("b" : String).length ∧
    levenshtein_similarity "ab" "b" =
      1 - (lev ("ab" : String).data ("b" : String).data : ℚ) /
        ((max ("ab" : String).length ("b" : String).length : ℕ) : ℚ) :=
  ⟨by decide, C5_theorem "ab" "b" (by decide)⟩

/-- Claim C6: for every cosine backend that is itself symmetric (the sklearn
TF-IDF backend is; it is outside this repository), the engine is symmetric in
its two text arguments for every method string, the four recognized ones
included. -/
theorem C6_theorem (cosine : String → String → ℚ)
    (hc : ∀ a b, cosine a b = cosine b a) (t1 t2 m : String) :
    calculate_text_similarity cosine t1 t2 m =
      calculate_text_similarity cosine t2 t1 m := by
  by_cases h1 : t1 = ""
  · rw [calculate_empty cosine t1 t2 m (Or.inl h1),
      calculate_empty cosine t2 t1 m (Or.inr h1)]
  · by_cases h2 : t2 = ""
    · rw [calculate_empty cosine t1 t2 m (Or.inr h2),
        calculate_empty cosine t2 t1 m (Or.inl h2)]
    · unfold calculate_text_similarity
      rw [if_neg (show ¬(t1 = "" ∨ t2 = "") from by tauto),
        if_neg (show ¬(t2 = "" ∨ t1 = "") from by tauto)]
      split_ifs <;> rw [Except.ok.injEq] <;>
        first
          | exact hc _ _
          | exact jaccard_similarity_comm _ _
          | exact levenshtein_similarity_comm _ _
          | exact word_overlap_similarity_comm _ _

/-- Claim C6, witness at the constant-zero backend and the `"jaccard"`
method. -/
theorem C6_witness :
    (∀ a b, cosineZero a b = cosineZero b a) ∧
    calculate_text_similarity cosineZero "ab" "ba" "jaccard" =
      calculate_text_similarity cosineZero "ba" "ab" "jaccard" :=
  ⟨fun _ _ => rfl, C6_theorem cosineZero (fun _ _ => rfl) "ab" "ba" "jaccard"⟩

/-- Claim C7, counterexample: `","` is a non-empty string, `"jaccard"` is a
supported method, yet the self-similarity is `0.0`, not `1.0` — cleaning
strips the comma, leaving no tokens, and an empty token union scores `0`. -/
theorem C7_counterexample :
    ("," : String) ≠ "" ∧
    "jaccard" ∈ supportedMethods ∧
    calculate_text_similarity cosineZero "," "," "jaccard" = Except.ok 0 ∧
    (Except.ok (0 : ℚ) : Except SimError ℚ) ≠ Except.ok 1 := by
  refine ⟨by decide, by decide, rfl, by simp⟩

/-- Claim C7 (amended): for every non-empty string `a`, self-similarity is
`1.0` under EDIT_DISTANCE unconditionally; under JACCARD and WORD_OVERLAP it
is `1.0` exactly when the cleaned text still has at least one token and `0.0`
otherwise; under COSINE the engine returns whatever the external backend
returns on the cleaned pair (not guaranteed to be `1.0`). -/
theorem C7_theorem (cosine : String → String → ℚ) (a : String) (h : a ≠ "") :
    calculate_text_similarity cosine a a "levenshtein" = Except.ok 1 ∧
    (pySplit (clean_text a) ≠ [] →
      calculate_text_similarity cosine a a "jaccard" = Except.ok 1 ∧
      calculate_text_similarity cosine a a "word_overlap" = Except.ok 1) ∧
    (pySplit (clean_text a) = [] →
      calculate_text_similarity cosine a a "jaccard" = Except.ok 0 ∧
      calculate_text_similarity cosine a a "word_overlap" = Except.ok 0) ∧
    calculate_text_similarity cosine a a "cosine" =
      Except.ok (cosine (clean_text a) (clean_text a)) := by
  refine ⟨?_, fun hw => ⟨?_, ?_⟩, fun hw => ⟨?_, ?_⟩, ?_⟩
  · rw [calculate_levenshtein cosine a a h h, levenshtein_similarity_self]
  · rw [calculate_jaccard cosine a a h h, jaccard_similarity_self _ hw]
  · rw [calculate_word_overlap cosine a a h h, word_overlap_similarity_self _ hw]
  · rw [calculate_jaccard cosine a a h h, jaccard_similarity_self_empty _ hw]
  · rw [calculate_word_overlap cosine a a h h, word_overlap_similarity_self_empty _ hw]
  · exact calculate_cosine cosine a a h h

/-- Claim C7, witness at `a = "ab"`. -/
theorem C7_witness :
    ("ab" : String) ≠ "" ∧
    (calculate_text_similarity cosineZero "ab" "ab" "levenshtein" = Except.ok 1 ∧
    (pySplit (clean_text "ab") ≠ [] →
      calculate_text_similarity cosineZero "ab" "ab" "jaccard" = Except.ok 1 ∧
      calculate_text_similarity cosineZero "ab" "ab" "word_overlap" = Except.ok 1) ∧
    (pySplit (clean_text "ab") = [] →
      calculate_text_similarity cosineZero "ab" "ab" "jaccard" = Except.ok 0 ∧
      calculate_text_similarity cosineZero "ab" "ab" "word_overlap" = Except.ok 0) ∧
    calculate_text_similarity cosineZero "ab" "ab" "cosine" =
      Except.ok (cosineZero (clean_text "ab") (clean_text "ab"))) :=
  ⟨by decide, C7_theorem cosineZero "ab" (by decide)⟩

/-- Claim C8: the number of blocks produced by `deduplicate_texts` is
monotonically non-decreasing in the configured similarity threshold — the
method never reads the configuration, so the count is in fact identical for
any two thresholds. -/
theorem C8_theorem (blocks : List TextBlock) (t1 t2 : ℚ) (h : t1 ≤ t2) :
    (deduplicate_texts ⟨t1⟩ blocks).length ≤ (deduplicate_texts ⟨t2⟩ blocks).length := by
  have he : deduplicate_texts ⟨t1⟩ blocks = deduplicate_texts ⟨t2⟩ blocks := rfl
  rw [he]

/-- Claim C8, witness raising the threshold from `0.5` to `0.95`. -/
theorem C8_witness :
    (1 : ℚ)/2 ≤ 95/100 ∧
    (deduplicate_texts ⟨1/2⟩ [blockEmpty, blockX]).length ≤
      (deduplicate_texts ⟨95/100⟩ [blockEmpty, blockX]).length :=
  ⟨by norm_num, C8_theorem [blockEmpty, blockX] (1/2) (95/100) (by norm_num)⟩

/-- Claim C10: the JACCARD and WORD_OVERLAP implementations are extensionally
equal, both as bare metrics and through the engine dispatcher. -/
theorem C10_theorem :
    (∀ t1 t2 : String, jaccard_similarity t1 t2 = word_overlap_similarity t1 t2) ∧
    (∀ (cosine : String → String → ℚ) (t1 t2 : String),
        calculate_text_similarity cosine t1 t2 "jaccard" =
          calculate_text_similarity cosine t1 t2 "word_overlap") := by
  refine ⟨jaccard_eq_word_overlap, ?_⟩
  intro cosine t1 t2
  by_cases h1 : t1 = ""
  · rw [calculate_empty cosine t1 t2 _ (Or.inl h1),
      calculate_empty cosine t1 t2 _ (Or.inl h1)]
  · by_cases h2 : t2 = ""
    · rw [calculate_empty cosine t1 t2 _ (Or.inr h2),
        calculate_empty cosine t1 t2 _ (Or.inr h2)]
    · rw [calculate_jaccard cosine t1 t2 h1 h2, calculate_word_overlap cosine t1 t2 h1 h2,
        jaccard_eq_word_overlap]

end VisionScribe
